import Mathlib

/-!
A shallow embedding of the data-acquisition core of the geofm stock dashboard
(`src/app.py`, `src/api_clients/*.py`, `src/utils/data_processor.py`).

Conventions of the embedding:
* JSON scalar values are modelled by `PyVal` (null, string, number); numbers are
  embedded as rationals.  The fields the code reads are all scalars.
* Python dicts with string keys (JSON objects and the stock records the clients
  build) are association lists `Obj`; dict lookup, `dict.get` with default,
  item assignment and `dict.update` are `getKey`, `getD`, `setKey`, `updMany`.
* A Python function that can raise is embedded as an `Option`-valued function;
  `none` is the exception (which every client catches and folds into `None`,
  the NotFound sentinel).  Wall-clock timestamps (`datetime.now().isoformat()`)
  are passed in as an opaque `now : String` argument.
* The network is an oracle argument: `NetOutcome` is the outcome of
  `requests.get` (`exn` = the call raised, `status code body` = a response with
  that HTTP status whose `.json()` is `body`).  The real sleeping of the rate
  limiters is time behaviour and is not modelled; what is modelled is whether a
  network request was issued at all (the `Bool` component of the Alpha Vantage
  operations).
* `float(x)` / `int(x)` on strings are modelled by a decimal parser
  (`floatOfString`, `intOfString`) covering sign, digits and one decimal point;
  exponents, infinities and surrounding whitespace are not modelled (no input
  in this development uses them).  `int` applied to a number truncates toward
  zero (`truncQ`).
-/

/-- A Python/JSON scalar value: `None`, a string, or a number (int or float,
both embedded as `ℚ`). -/
inductive PyVal where
  | null : PyVal
  | str : String → PyVal
  | num : ℚ → PyVal
deriving DecidableEq, Repr

/-- A Python dict with string keys, as the JSON payloads and the stock records
in this code base all are. -/
abbrev Obj := List (String × PyVal)

/-- Dict lookup: `m[k]` / `k in m`.  First binding wins (keys are unique in all
payloads considered). -/
def getKey {α : Type} : List (String × α) → String → Option α
  | [], _ => none
  | (k', v) :: r, k => if k' = k then some v else getKey r k

/-- `m.get(k, d)`. -/
def getD {α : Type} (m : List (String × α)) (k : String) (d : α) : α :=
  (getKey m k).getD d

/-- Dict item assignment `m[k] = v`: overwrite in place, or append a new key. -/
def setKey {α : Type} : List (String × α) → String → α → List (String × α)
  | [], k, v => [(k, v)]
  | (k', v') :: r, k, v =>
    if k' = k then (k, v) :: r else (k', v') :: setKey r k v

/-- `m.update(other)`: assign every binding of `other` into `m`, in order. -/
def updMany {α : Type} (m : List (String × α)) : List (String × α) → List (String × α)
  | [] => m
  | (k, v) :: r => updMany (setKey m k v) r

/-- Python truthiness of a scalar: `None`, `""` and `0` are falsy. -/
def PyVal.truthy : PyVal → Bool
  | .null => false
  | .str s => s ≠ ""
  | .num q => q ≠ 0

/-- The numeric value of a scalar when it is usable in arithmetic or an order
comparison against a number; a string or `None` there raises `TypeError`
(`none`). -/
def asNum : PyVal → Option ℚ
  | .num q => some q
  | _ => none

/-- The decimal digit denoted by a character, if any. -/
def digitVal (c : Char) : Option ℕ :=
  if 48 ≤ c.toNat ∧ c.toNat ≤ 57 then some (c.toNat - 48) else none

/-- Read a digit string left to right, accumulating; `none` on a non-digit. -/
def digitsToNat : List Char → ℕ → Option ℕ
  | [], acc => some acc
  | c :: r, acc =>
    match digitVal c with
    | some d => digitsToNat r (acc * 10 + d)
    | none => none

/-- Split a character list at the first decimal point, if any. -/
def splitFrac : List Char → List Char × Option (List Char)
  | [] => ([], none)
  | c :: r =>
    if c = '.' then ([], some r)
    else
      let p := splitFrac r
      (c :: p.1, p.2)

/-- Models Python `float(s)` on a string: optional sign, digits, at most one
decimal point, at least one digit; `none` models the `ValueError` raise. -/
def floatOfString (s : String) : Option ℚ :=
  let sgn : ℚ :=
    match s.data with
    | '-' :: _ => -1
    | _ => 1
  let body : List Char :=
    match s.data with
    | '-' :: r => r
    | '+' :: r => r
    | r => r
  let p := splitFrac body
  match p.2 with
  | none =>
    if p.1 = [] then none
    else (digitsToNat p.1 0).map (fun n => sgn * (n : ℚ))
  | some fp =>
    if p.1 = [] ∧ fp = [] then none
    else
      match digitsToNat p.1 0, digitsToNat fp 0 with
      | some i, some f => some (sgn * ((i : ℚ) + (f : ℚ) / (10 : ℚ) ^ fp.length))
      | _, _ => none

/-- Models Python `int(s)` on a string: optional sign then digits only;
`none` models the `ValueError` raise (so `int("1.5")` fails). -/
def intOfString (s : String) : Option ℤ :=
  let body : List Char :=
    match s.data with
    | '-' :: r => r
    | '+' :: r => r
    | r => r
  let sgn : ℤ :=
    match s.data with
    | '-' :: _ => -1
    | _ => 1
  if body = [] then none
  else (digitsToNat body 0).map (fun n => sgn * (n : ℤ))

/-- Truncation toward zero, as Python `int` applied to a float. -/
def truncQ (q : ℚ) : ℤ := if 0 ≤ q then ⌊q⌋ else ⌈q⌉

/-- Models Python `float(v)` on a scalar. -/
def pyFloat : PyVal → Option ℚ
  | .null => none
  | .num q => some q
  | .str s => floatOfString s

/-- `s.replace('%', '')`: drop every percent sign (single-character pattern,
so replacement is character filtering). -/
def stripPct (s : String) : String := ⟨s.data.filter (fun c => c ≠ '%')⟩

/-- `s.replace(':', '.')` from the Yahoo client's symbol cleaning. -/
def colonToDot (s : String) : String :=
  ⟨s.data.map (fun c => if c = ':' then '.' else c)⟩

/-- Lexicographic comparison of character lists by code point, as Python
string comparison. -/
def charListLe : List Char → List Char → Bool
  | [], _ => true
  | _ :: _, [] => false
  | a :: as, b :: bs =>
    if a.toNat < b.toNat then true
    else if b.toNat < a.toNat then false
    else charListLe as bs

/-- Python `s <= t` on strings. -/
def strLe (a b : String) : Bool := charListLe a.data b.data

/-- One trading-day OHLCV record as built by all three historical endpoints. -/
structure Bar where
  date : String
  open' : ℚ
  high : ℚ
  low : ℚ
  close : ℚ
  volume : ℤ
deriving DecidableEq, Repr

/-- The comparator of `historical_data.sort(key=lambda x: x['date'],
reverse=True)`: descending by date string. -/
def barDesc (a b : Bar) : Bool := strLe b.date a.date

/-- A series is newest-first when every consecutive pair of dates is
non-increasing. -/
def newestFirstB : List Bar → Bool
  | [] => true
  | [_] => true
  | a :: b :: r => strLe b.date a.date && newestFirstB (b :: r)

/-! ## The network oracle -/

/-- Outcome of one `requests.get`: the call raised (transport error, timeout,
or a `.json()` failure), or a response with an HTTP status code and parsed
JSON body. -/
inductive NetOutcome (α : Type) where
  | exn : NetOutcome α
  | status : ℕ → α → NetOutcome α

/-! ## Alpha Vantage client (`src/api_clients/alpha_vantage_client.py`)

The client's cross-call state is `request_count : ℕ` (`last_request_time`
only drives the sleep, which is time behaviour and not modelled).  Each
operation returns `(result, new request_count, a network request was issued)`.
Alpha Vantage quote payloads carry every field as a JSON string, so the
`Global Quote` dict is a `List (String × String)`. -/

abbrev AVDict := List (String × String)

/-- `AlphaVantageClient._make_request`: on a response, record the call
(`request_count += 1`) and return the JSON body iff the status is 200; if
`requests.get` raised, the handler returns `None` and the counter was never
incremented (the increment sits after the call in the source). -/
def AlphaVantageClient.make_request {α : Type} (request_count : ℕ)
    (net : NetOutcome α) : Option α × ℕ × Bool :=
  match net with
  | .exn => (none, request_count, true)
  | .status code body =>
    (if code = 200 then some body else none, request_count + 1, true)

/-- The quote record literal of `AlphaVantageClient.get_stock_data`
(lines 66-79). -/
def avRecord (symbol : String) (price change cp : ℚ) (vol : ℤ)
    (high low o pc : ℚ) (now : String) : Obj :=
  [("symbol", .str symbol), ("name", .str symbol), ("price", .num price),
   ("change", .num change), ("change_percent", .num cp),
   ("volume", .num (vol : ℚ)), ("high", .num high), ("low", .num low),
   ("open", .num o), ("previous_close", .num pc),
   ("source", .str "alpha_vantage"), ("timestamp", .str now)]

/-- `float(quote.get(k, 0))`: an absent key yields `float(0) = 0.0`; a present
string is parsed and a parse failure raises (folded into `none`). -/
def avFloatField (q : AVDict) (k : String) : Option ℚ :=
  match getKey q k with
  | none => some 0
  | some s => floatOfString s

/-- `int(quote.get(k, 0))`. -/
def avIntField (q : AVDict) (k : String) : Option ℤ :=
  match getKey q k with
  | none => some 0
  | some s => intOfString s

/-- `float(quote.get('10. change percent', '0%').replace('%', ''))`. -/
def avChangePercentField (q : AVDict) : Option ℚ :=
  floatOfString (stripPct (getD q "10. change percent" "0%"))

/-- The body of `get_stock_data` after the `Global Quote` dict is in hand:
`if not quote or '05. price' not in quote: return None`, then the record
build, whose `float`/`int` conversions raise into the catch-all. -/
def avBuildRecord (symbol : String) (quote : AVDict) (now : String) : Option Obj :=
  if quote = [] then none
  else if (getKey quote "05. price").isNone then none
  else do
    let price ← avFloatField quote "05. price"
    let change ← avFloatField quote "09. change"
    let cp ← avChangePercentField quote
    let vol ← avIntField quote "06. volume"
    let high ← avFloatField quote "03. high"
    let low ← avFloatField quote "04. low"
    let o ← avFloatField quote "02. open"
    let pc ← avFloatField quote "08. previous close"
    pure (avRecord symbol price change cp vol high low o pc now)

/-- `AlphaVantageClient.get_stock_data`.  The daily-cap guard
(`if self.request_count >= 25: return None`) fires before `_make_request`,
so no request is issued and the counter is untouched.  `if not data or
'Global Quote' not in data` collapses to the single `getKey` match because
lookup in the empty dict is `none`. -/
def AlphaVantageClient.get_stock_data (request_count : ℕ) (symbol : String)
    (net : NetOutcome (List (String × AVDict))) (now : String) :
    Option Obj × ℕ × Bool :=
  if 25 ≤ request_count then (none, request_count, false)
  else
    let m := AlphaVantageClient.make_request request_count net
    let r : Option Obj := do
      let data ← m.1
      let quote ← getKey data "Global Quote"
      avBuildRecord symbol quote now
    (r, m.2.1, m.2.2)

/-- One iteration of the `Time Series (Daily)` loop: `values['1. open']` etc.
raise `KeyError` on a missing key and `float`/`int` raise on a malformed
string; both fold into `none` via the catch-all. -/
def avBar (e : String × AVDict) : Option Bar := do
  let o ← getKey e.2 "1. open"
  let o ← floatOfString o
  let h ← getKey e.2 "2. high"
  let h ← floatOfString h
  let l ← getKey e.2 "3. low"
  let l ← floatOfString l
  let c ← getKey e.2 "4. close"
  let c ← floatOfString c
  let v ← getKey e.2 "5. volume"
  let v ← intOfString v
  pure ⟨e.1, o, h, l, c, v⟩

/-- The per-date loop of `AlphaVantageClient.get_historical_data`, in dict
insertion order, aborting on the first raising entry. -/
def avBars : List (String × AVDict) → Option (List Bar)
  | [] => some []
  | e :: r =>
    match avBar e with
    | none => none
    | some b =>
      match avBars r with
      | none => none
      | some bs => some (b :: bs)

/-- `AlphaVantageClient.get_historical_data`: same daily-cap guard, then the
`Time Series (Daily)` parse and the explicit
`historical_data.sort(key=lambda x: x['date'], reverse=True)`. -/
def AlphaVantageClient.get_historical_data (request_count : ℕ) (symbol : String)
    (net : NetOutcome (List (String × List (String × AVDict)))) :
    Option (List Bar) × ℕ × Bool :=
  if 25 ≤ request_count then (none, request_count, false)
  else
    let m := AlphaVantageClient.make_request request_count net
    let r : Option (List Bar) := do
      let data ← m.1
      let ts ← getKey data "Time Series (Daily)"
      let bars ← avBars ts
      pure (bars.mergeSort barDesc)
    (r, m.2.1, m.2.2)

/-! ## Finnhub client (`src/api_clients/finnhub_client.py`)

Finnhub's limiter is the windowed-counter policy, pure time behaviour
(sleeping), so the two `_make_request` outcomes are passed in directly as
`Option` payloads (`none` = transport error or non-200).  Quote and profile
payloads carry JSON scalars. -/

/-- The base record literal of `FinnhubClient.get_stock_data` (lines 66-78). -/
def finnBase (symbol : String) (name : PyVal) (price change cp high low o pc : ℚ)
    (now : String) : Obj :=
  [("symbol", .str symbol), ("name", name), ("price", .num price),
   ("change", .num change), ("change_percent", .num cp), ("high", .num high),
   ("low", .num low), ("open", .num o), ("previous_close", .num pc),
   ("source", .str "finnhub"), ("timestamp", .str now)]

/-- `profile_data.get('marketCapitalization', 0) * 1000000 if
profile_data.get('marketCapitalization') else 0`.  A truthy number is scaled;
a truthy string would be Python string repetition (never a raise); anything
falsy gives `0`. -/
def finnMarketCap (p : Obj) : PyVal :=
  match getD p "marketCapitalization" (.num 0) with
  | .num m => if m ≠ 0 then .num (m * 1000000) else .num 0
  | .str s =>
    if s ≠ "" then .str (String.join (List.replicate 1000000 s)) else .num 0
  | .null => .num 0

/-- The `stock_data.update({...})` block run when `profile_data` is truthy. -/
def finnProfileUpdate (base : Obj) (p : Obj) : Obj :=
  updMany base
    [("country", getD p "country" (.str "Unknown")),
     ("currency", getD p "currency" (.str "USD")),
     ("exchange", getD p "exchange" (.str "Unknown")),
     ("industry", getD p "finnhubIndustry" (.str "Unknown")),
     ("market_cap", finnMarketCap p),
     ("website", getD p "weburl" (.str "")),
     ("logo", getD p "logo" (.str ""))]

/-- `profile_data.get('name', symbol) if profile_data else symbol`. -/
def finnName (symbol : String) (profile_resp : Option Obj) : PyVal :=
  match profile_resp with
  | some p => if p = [] then .str symbol else getD p "name" (.str symbol)
  | none => .str symbol

/-- The `stock_data = { ... }` build of `FinnhubClient.get_stock_data`
(lines 66-78): every `float(quote_data.get(k, 0))` raises into the
catch-all on a non-numeric value. -/
def finnBaseOf (symbol : String) (quote_data : Obj) (name : PyVal) (now : String) :
    Option Obj := do
  let price ← pyFloat (getD quote_data "c" (.num 0))
  let change ← pyFloat (getD quote_data "d" (.num 0))
  let cp ← pyFloat (getD quote_data "dp" (.num 0))
  let high ← pyFloat (getD quote_data "h" (.num 0))
  let low ← pyFloat (getD quote_data "l" (.num 0))
  let o ← pyFloat (getD quote_data "o" (.num 0))
  let pc ← pyFloat (getD quote_data "pc" (.num 0))
  pure (finnBase symbol name price change cp high low o pc now)

/-- `FinnhubClient.get_stock_data`.  `quote_resp` and `profile_resp` are the
outcomes of the two `_make_request` calls; `if profile_data:` is dict
truthiness, so `None` and the empty profile both skip the update block. -/
def FinnhubClient.get_stock_data (symbol : String) (quote_resp : Option Obj)
    (profile_resp : Option Obj) (now : String) : Option Obj :=
  match quote_resp with
  | none => none
  | some quote_data =>
    if quote_data = [] then none
    else if (getKey quote_data "c").isNone then none
    else
      match finnBaseOf symbol quote_data (finnName symbol profile_resp) now with
      | none => none
      | some base =>
        match profile_resp with
        | some p => if p = [] then some base else some (finnProfileUpdate base p)
        | none => some base

/-- The `/stock/candle` payload: `data.get('s')` and the six parallel arrays,
each defaulting to `[]` when absent (`data.get(key, [])`). -/
structure FinnCandles where
  s : Option PyVal
  t : List ℤ
  o : List ℚ
  h : List ℚ
  l : List ℚ
  c : List ℚ
  v : List ℚ

/-- The `for i in range(len(timestamps))` loop, which indexes every value
array at `i` for `i` below `len(timestamps)`: one bar per timestamp, and an
out-of-range index (a value array shorter than the timestamp array) raises
`IndexError` into the catch-all.  Indexing by a running `i` is embedded as
head-peeling recursion driven by the timestamp list.  `dateOf` is
`datetime.fromtimestamp(t).strftime('%Y-%m-%d')`, a pure (local-timezone)
conversion passed in as an oracle. -/
def finnZip (dateOf : ℤ → String) :
    List ℤ → List ℚ → List ℚ → List ℚ → List ℚ → List ℚ → Option (List Bar)
  | [], _, _, _, _, _ => some []
  | t :: tr, o :: og, h :: hg, l :: lg, c :: cg, v :: vg =>
    match finnZip dateOf tr og hg lg cg vg with
    | none => none
    | some bs => some (⟨dateOf t, o, h, l, c, truncQ v⟩ :: bs)
  | _ :: _, _, _, _, _, _ => none

/-- `FinnhubClient.get_historical_data`: `if not data or data.get('s') != 'ok':
return None`, the zip-by-index loop, then the newest-first sort. -/
def FinnhubClient.get_historical_data (dateOf : ℤ → String) (symbol : String)
    (resp : Option FinnCandles) : Option (List Bar) :=
  match resp with
  | none => none
  | some data =>
    if data.s ≠ some (PyVal.str "ok") then none
    else
      match finnZip dateOf data.t data.o data.h data.l data.c data.v with
      | none => none
      | some bars => some (bars.mergeSort barDesc)

/-! ## Yahoo Finance client (`src/api_clients/yahoo_client.py`)

`ticker.info` is passed in as `info_resp` (`none` = the `yfinance` call
raised).  Note the record build performs no numeric conversion at all: raw
`info.get` values flow straight into the record. -/

/-- The record literal of `YahooFinanceClient.get_stock_data` (lines 30-47). -/
def yahooRecord (sym : String) (info : Obj) (now : String) : Obj :=
  [("symbol", .str sym), ("name", getD info "longName" (.str sym)),
   ("price", getD info "regularMarketPrice" (.num 0)),
   ("change", getD info "regularMarketChange" (.num 0)),
   ("change_percent", getD info "regularMarketChangePercent" (.num 0)),
   ("volume", getD info "regularMarketVolume" (.num 0)),
   ("market_cap", getD info "marketCap" (.num 0)),
   ("pe_ratio", getD info "trailingPE" (.num 0)),
   ("dividend_yield", getD info "dividendYield" (.num 0)),
   ("sector", getD info "sector" (.str "Unknown")),
   ("industry", getD info "industry" (.str "Unknown")),
   ("country", getD info "country" (.str "Unknown")),
   ("currency", getD info "currency" (.str "USD")),
   ("exchange", getD info "exchange" (.str "Unknown")),
   ("source", .str "yahoo_finance"), ("timestamp", .str now)]

/-- `YahooFinanceClient.get_stock_data`. -/
def YahooFinanceClient.get_stock_data (symbol : String) (info_resp : Option Obj)
    (now : String) : Option Obj :=
  let sym := colonToDot symbol
  match info_resp with
  | none => none
  | some info =>
    if info = [] then none
    else if (getKey info "regularMarketPrice").isNone then none
    else some (yahooRecord sym info now)

/-- One row of the `yfinance` history DataFrame: the `'%Y-%m-%d'`-formatted
index date and the OHLCV columns. -/
structure YRow where
  date : String
  open' : ℚ
  high : ℚ
  low : ℚ
  close : ℚ
  volume : ℚ
deriving DecidableEq, Repr

/-- `YahooFinanceClient.get_historical_data`: empty frame is NotFound; rows
are emitted in the frame's own order — there is no sort in this function. -/
def YahooFinanceClient.get_historical_data (symbol : String) (hist : List YRow) :
    Option (List Bar) :=
  if hist = [] then none
  else some (hist.map (fun r => ⟨r.date, r.open', r.high, r.low, r.close, truncQ r.volume⟩))

/-! ## The fallback resolver (`src/app.py`, `get_stock_detail`, lines 55-84)

Yahoo Finance first, then Alpha Vantage, then Finnhub; `if not stock_data`
is Python dict truthiness, so `None` and the empty dict both fall through. -/

/-- Whether an adapter's return value is truthy (`if not stock_data`). -/
def objTruthy : Option Obj → Bool
  | none => false
  | some o => o ≠ []

/-- The resolution core of `get_stock_detail`: the result, and which adapters
were invoked. -/
structure ResolveOutcome where
  result : Option Obj
  yahoo_called : Bool
  alpha_called : Bool
  finnhub_called : Bool
deriving DecidableEq, Repr

/-- `get_stock_detail`'s provider cascade. -/
def get_stock_detail_resolve (yahoo alpha finnhub : Option Obj) : ResolveOutcome :=
  if objTruthy yahoo then ⟨yahoo, true, false, false⟩
  else if objTruthy alpha then ⟨alpha, true, true, false⟩
  else ⟨finnhub, true, true, true⟩

/-! ## Data processor (`src/utils/data_processor.py`)

`get_enhanced_stocks_data` loads the stocks JSON (passed in here as
`stocks : List Obj`) and mutates each record; `calculate_portfolio_performance`
consumes the enhanced records plus the trades DataFrame.  Both route handlers
catch exceptions, so a raising computation is embedded as an error outcome, not
hidden. -/

/-- The market-cap classification chain of `get_enhanced_stocks_data`
(lines 54-63). -/
def capCategory (market_cap : ℚ) : String :=
  if market_cap > 200000000000 then "Mega Cap"
  else if market_cap > 10000000000 then "Large Cap"
  else if market_cap > 2000000000 then "Mid Cap"
  else if market_cap > 300000000 then "Small Cap"
  else "Micro Cap"

/-- The per-record body of the `get_enhanced_stocks_data` loop: comparing a
non-numeric `market_cap` or `price` with an int raises `TypeError`, and when
`price > 0` the recomputation `change / (price - change) * 100` raises
`ZeroDivisionError` whenever `price - change == 0`.  No handler exists in this
function, so a raise (`none`) propagates to the caller. -/
def DataProcessor.enhance_stock (stock : Obj) : Option Obj :=
  match asNum (getD stock "market_cap" (.num 0)) with
  | none => none
  | some mc =>
    let stock1 := setKey stock "cap_category" (.str (capCategory mc))
    match asNum (getD stock "price" (.num 0)) with
    | none => none
    | some price =>
      if price > 0 then
        match asNum (getD stock "change" (.num 0)) with
        | none => none
        | some change =>
          if price - change = 0 then none
          else some (setKey stock1 "change_percent" (.num (change / (price - change) * 100)))
      else some (setKey stock1 "change_percent" (.num 0))

/-- `DataProcessor.get_enhanced_stocks_data`: the enhancement loop over the
loaded stocks; the first raising record aborts the whole call. -/
def DataProcessor.get_enhanced_stocks_data : List Obj → Option (List Obj)
  | [] => some []
  | s :: r =>
    match DataProcessor.enhance_stock s with
    | none => none
    | some e =>
      match DataProcessor.get_enhanced_stocks_data r with
      | none => none
      | some es => some (e :: es)

/-- `sum(s.get(k, 0) for s in stocks)`: a left fold from `0`; adding a
non-numeric value raises `TypeError`. -/
def sumNums (stocks : List Obj) (k : String) : Option ℚ :=
  stocks.foldlM (fun acc s => (asNum (getD s k (.num 0))).map (fun q => acc + q)) 0

/-- Per-sector accumulator of the `sector_performance` loop. -/
structure SectorAcc where
  count : ℕ
  total_change : ℚ
deriving DecidableEq, Repr

/-- Insert one stock's change into the sector table, preserving first-seen
insertion order as a Python dict does. -/
def bumpSector : List (PyVal × SectorAcc) → PyVal → ℚ → List (PyVal × SectorAcc)
  | [], sec, ch => [(sec, ⟨1, ch⟩)]
  | (s, a) :: r, sec, ch =>
    if s = sec then (s, ⟨a.count + 1, a.total_change + ch⟩) :: r
    else (s, a) :: bumpSector r sec ch

/-- The `sector_performance` grouping loop: `stock.get('sector', 'Unknown')`
keys the table; `+= stock.get('change', 0)` raises on a non-numeric change. -/
def groupSectors (stocks : List Obj) : Option (List (PyVal × SectorAcc)) :=
  stocks.foldlM
    (fun acc s =>
      (asNum (getD s "change" (.num 0))).map
        (bumpSector acc (getD s "sector" (.str "Unknown"))))
    []

/-- One emitted `sector_performance` entry after the averaging pass. -/
structure SectorPerf where
  sector : PyVal
  count : ℕ
  total_change : ℚ
  avg_change : ℚ
deriving DecidableEq, Repr

/-- The observations `calculate_portfolio_performance` makes of the trades
DataFrame loaded by `load_trades_data` (which returns an empty frame on any
load failure). -/
structure TradesDF where
  isEmpty : Bool
  nrows : ℕ
  hasVolume : Bool
  volumeSum : ℚ
  volumeMean : ℚ
  hasDate : Bool
  dateMin : PyVal
  dateMax : PyVal
deriving DecidableEq, Repr

/-- The `trading_stats` dict built when the trades frame is non-empty. -/
structure TradingStats where
  total_trades : ℕ
  total_volume : ℚ
  avg_trade_size : ℚ
  date_start : PyVal
  date_end : PyVal
deriving DecidableEq, Repr

/-- The full-result dict of `calculate_portfolio_performance` (lines 143-150);
`trading_stats = none` embeds the empty `{}` placeholder kept when there are
no trades. -/
structure PortfolioPerformance where
  total_stocks : ℕ
  total_market_cap : ℚ
  avg_change : ℚ
  sector_performance : List SectorPerf
  trading_stats : Option TradingStats
  last_updated : String
deriving DecidableEq, Repr

/-- The three observably different outcomes of
`calculate_portfolio_performance`: an exception propagated to the route
handler, the early `return {}`, or the full result dict. -/
inductive PerfResult where
  | error : PerfResult
  | empty : PerfResult
  | perf : PortfolioPerformance → PerfResult
deriving DecidableEq, Repr

/-- `DataProcessor.calculate_portfolio_performance`.  It first re-runs
`get_enhanced_stocks_data`; `if not stocks: return {}` fires on the empty
universe; otherwise the three reductions, the sector loop and the trades
stats are assembled. -/
def DataProcessor.calculate_portfolio_performance (stocks : List Obj)
    (trades : TradesDF) (now : String) : PerfResult :=
  match DataProcessor.get_enhanced_stocks_data stocks with
  | none => .error
  | some enhanced =>
    if enhanced = [] then .empty
    else
      match sumNums enhanced "market_cap", sumNums enhanced "change",
            groupSectors enhanced with
      | some tmc, some tch, some groups =>
        let total_stocks := enhanced.length
        let avg : ℚ := if total_stocks > 0 then tch / (total_stocks : ℚ) else 0
        let sp : List SectorPerf := groups.map (fun g =>
          ⟨g.1, g.2.count, g.2.total_change,
           if g.2.count > 0 then g.2.total_change / (g.2.count : ℚ) else 0⟩)
        let tstats : Option TradingStats :=
          if trades.isEmpty then none
          else some ⟨trades.nrows,
                     if trades.hasVolume then trades.volumeSum else 0,
                     if trades.hasVolume then trades.volumeMean else 0,
                     if trades.hasDate then trades.dateMin else .null,
                     if trades.hasDate then trades.dateMax else .null⟩
        .perf ⟨total_stocks, tmc, avg, sp, tstats, now⟩
      | _, _, _ => .error

/-! ## Helper lemmas -/

theorem getKey_setKey_self {α : Type} (m : List (String × α)) (k : String) (v : α) :
    getKey (setKey m k v) k = some v := by
  induction m with
  | nil => simp [setKey, getKey]
  | cons p r ih =>
    by_cases h : p.1 = k
    · simp [setKey, h, getKey]
    · simp [setKey, h, getKey, ih]

theorem getKey_setKey_ne {α : Type} (m : List (String × α)) (k k' : String) (v : α)
    (h : k' ≠ k) : getKey (setKey m k' v) k = getKey m k := by
  induction m with
  | nil => simp [setKey, getKey, h]
  | cons p r ih =>
    by_cases hp : p.1 = k'
    · simp [setKey, hp, getKey, h]
    · simp only [setKey, hp, if_false, getKey]
      by_cases hk : p.1 = k
      · simp [hk]
      · simp [hk, ih]

theorem setKey_ne_nil {α : Type} (m : List (String × α)) (k : String) (v : α) :
    setKey m k v ≠ [] := by
  cases m with
  | nil => simp [setKey]
  | cons p r =>
    by_cases h : p.1 = k
    · simp [setKey, h]
    · simp [setKey, h]

theorem updMany_ne_nil {α : Type} (us : List (String × α)) (m : List (String × α))
    (h : m ≠ []) : updMany m us ≠ [] := by
  induction us generalizing m with
  | nil => simpa [updMany]
  | cons u r ih => exact ih (setKey m u.1 u.2) (setKey_ne_nil m u.1 u.2)

theorem charListLe_trans :
    ∀ x y z : List Char, charListLe x y = true → charListLe y z = true →
      charListLe x z = true := by
  intro x
  induction x with
  | nil => intro y z _ _; rfl
  | cons a as ih =>
    intro y z h1 h2
    cases y with
    | nil => simp [charListLe] at h1
    | cons b bs =>
      cases z with
      | nil => simp [charListLe] at h2
      | cons c cs =>
        simp only [charListLe] at h1 h2 ⊢
        by_cases hab : a.toNat < b.toNat
        · by_cases hbc : b.toNat < c.toNat
          · simp [show a.toNat < c.toNat by omega]
          · by_cases hcb : c.toNat < b.toNat
            · simp [hbc, hcb] at h2
            · simp [show a.toNat < c.toNat by omega]
        · by_cases hba : b.toNat < a.toNat
          · simp [hab, hba] at h1
          · by_cases hbc : b.toNat < c.toNat
            · simp [show a.toNat < c.toNat by omega]
            · by_cases hcb : c.toNat < b.toNat
              · simp [hbc, hcb] at h2
              · have hac : ¬ a.toNat < c.toNat := by omega
                have hca : ¬ c.toNat < a.toNat := by omega
                simp only [hab, hba, if_false] at h1
                simp only [hbc, hcb, if_false] at h2
                simp [hac, hca, ih bs cs h1 h2]

theorem charListLe_total (x y : List Char) :
    charListLe x y = true ∨ charListLe y x = true := by
  induction x generalizing y with
  | nil => left; rfl
  | cons a as ih =>
    cases y with
    | nil => right; rfl
    | cons b bs =>
      simp only [charListLe]
      by_cases hab : a.toNat < b.toNat
      · left; simp [hab]
      · by_cases hba : b.toNat < a.toNat
        · right; simp [hba]
        · rcases ih bs with h | h
          · left; simp [hab, hba, h]
          · right; simp [hab, hba, h]

theorem barDesc_trans (a b c : Bar) (h1 : barDesc a b = true) (h2 : barDesc b c = true) :
    barDesc a c = true :=
  charListLe_trans _ _ _ h2 h1

theorem barDesc_total (a b : Bar) : (barDesc a b || barDesc b a) = true := by
  rcases charListLe_total b.date.data a.date.data with h | h
  · simp [barDesc, strLe, h]
  · simp [barDesc, strLe, h]

theorem pairwise_newestFirstB {l : List Bar}
    (h : List.Pairwise (fun a b => barDesc a b = true) l) : newestFirstB l = true := by
  induction l with
  | nil => rfl
  | cons a r ih =>
    cases r with
    | nil => rfl
    | cons b s =>
      rw [newestFirstB]
      have hp := List.pairwise_cons.mp h
      have hab : barDesc a b = true := hp.1 b (by simp)
      simp [show strLe b.date a.date = true from hab, ih hp.2]

theorem mergeSort_newestFirst (l : List Bar) :
    newestFirstB (l.mergeSort barDesc) = true :=
  pairwise_newestFirstB (List.sorted_mergeSort barDesc_trans barDesc_total l)

theorem avRecord_ne_nil (sym : String) (price change cp : ℚ) (vol : ℤ)
    (high low o pc : ℚ) (now : String) :
    avRecord sym price change cp vol high low o pc now ≠ [] := by
  simp [avRecord]

theorem avBuildRecord_some {sym : String} {quote : AVDict} {now : String} {r : Obj}
    (h : avBuildRecord sym quote now = some r) :
    ∃ price change cp vol high low o pc,
      r = avRecord sym price change cp vol high low o pc now := by
  unfold avBuildRecord at h
  split at h
  · exact absurd h (by simp)
  · split at h
    · exact absurd h (by simp)
    · simp only [bind, Option.bind_eq_some, Option.pure_def, Option.some.injEq] at h
      obtain ⟨p, _, c, _, cp, _, v, _, hi, _, lo, _, o, _, pc, _, hr⟩ := h
      exact ⟨p, c, cp, v, hi, lo, o, pc, hr.symm⟩

theorem av_get_stock_data_some {rc : ℕ} {sym : String}
    {net : NetOutcome (List (String × AVDict))} {now : String} {r : Obj}
    (h : (AlphaVantageClient.get_stock_data rc sym net now).1 = some r) :
    ∃ price change cp vol high low o pc,
      r = avRecord sym price change cp vol high low o pc now := by
  unfold AlphaVantageClient.get_stock_data at h
  split at h
  · exact absurd h (by simp)
  · simp only [bind, Option.bind_eq_some] at h
    obtain ⟨data, _, quote, _, hb⟩ := h
    exact avBuildRecord_some hb

theorem yahooRecord_ne_nil (sym : String) (info : Obj) (now : String) :
    yahooRecord sym info now ≠ [] := by
  simp [yahooRecord]

theorem yahoo_get_stock_data_some {sym : String} {info_resp : Option Obj}
    {now : String} {r : Obj}
    (h : YahooFinanceClient.get_stock_data sym info_resp now = some r) :
    ∃ info, info_resp = some info ∧ info ≠ [] ∧
      (getKey info "regularMarketPrice").isSome ∧
      r = yahooRecord (colonToDot sym) info now := by
  unfold YahooFinanceClient.get_stock_data at h
  cases info_resp with
  | none => simp at h
  | some info =>
    simp only at h
    split at h
    · exact absurd h (by simp)
    · split at h
      · exact absurd h (by simp)
      · rename_i h1 h2
        refine ⟨info, rfl, h1, ?_, by simpa using h.symm⟩
        simpa [Option.isSome_iff_ne_none, Option.isNone_iff_eq_none] using h2

theorem finnBase_ne_nil (sym : String) (name : PyVal) (price change cp high low o pc : ℚ)
    (now : String) :
    finnBase sym name price change cp high low o pc now ≠ [] := by
  simp [finnBase]

theorem finnBaseOf_some {sym : String} {qd : Obj} {name : PyVal} {now : String} {r : Obj}
    (h : finnBaseOf sym qd name now = some r) :
    ∃ price change cp high low o pc,
      r = finnBase sym name price change cp high low o pc now := by
  unfold finnBaseOf at h
  simp only [bind, Option.bind_eq_some, Option.pure_def, Option.some.injEq] at h
  obtain ⟨p, _, c, _, cp, _, hi, _, lo, _, o, _, pc, _, hr⟩ := h
  exact ⟨p, c, cp, hi, lo, o, pc, hr.symm⟩

theorem finn_get_stock_data_some {sym : String} {qr pr : Option Obj}
    {now : String} {r : Obj}
    (h : FinnhubClient.get_stock_data sym qr pr now = some r) :
    ∃ price change cp high low o pc,
      ((pr = none ∨ pr = some []) ∧
        r = finnBase sym (finnName sym pr) price change cp high low o pc now) ∨
      (∃ p, pr = some p ∧ p ≠ [] ∧
        r = finnProfileUpdate
          (finnBase sym (finnName sym pr) price change cp high low o pc now) p) := by
  unfold FinnhubClient.get_stock_data at h
  cases qr with
  | none => simp at h
  | some qd =>
    simp only at h
    split at h
    · exact absurd h (by simp)
    · split at h
      · exact absurd h (by simp)
      · split at h
        · exact absurd h (by simp)
        · rename_i base hbase
          obtain ⟨p', c', cp', hi', lo', o', pc', hb⟩ := finnBaseOf_some hbase
          cases pr with
          | none =>
            refine ⟨p', c', cp', hi', lo', o', pc', Or.inl ⟨Or.inl rfl, ?_⟩⟩
            simp only at h
            rw [← hb]
            exact (Option.some.injEq _ _ ▸ h).symm
          | some p =>
            simp only at h
            by_cases hp : p = []
            · subst hp
              simp only [if_pos rfl] at h
              refine ⟨p', c', cp', hi', lo', o', pc', Or.inl ⟨Or.inr rfl, ?_⟩⟩
              rw [← hb]
              exact (Option.some.injEq _ _ ▸ h).symm
            · simp only [if_neg hp] at h
              refine ⟨p', c', cp', hi', lo', o', pc',
                Or.inr ⟨p, rfl, hp, ?_⟩⟩
              rw [← hb]
              exact (Option.some.injEq _ _ ▸ h).symm

theorem getKey_finnProfileUpdate_country (base p : Obj) :
    getKey (finnProfileUpdate base p) "country" = some (getD p "country" (.str "Unknown")) := by
  simp only [finnProfileUpdate, updMany]
  rw [getKey_setKey_ne _ _ _ _ (by decide), getKey_setKey_ne _ _ _ _ (by decide),
      getKey_setKey_ne _ _ _ _ (by decide), getKey_setKey_ne _ _ _ _ (by decide),
      getKey_setKey_ne _ _ _ _ (by decide), getKey_setKey_ne _ _ _ _ (by decide),
      getKey_setKey_self]

theorem getKey_finnProfileUpdate_currency (base p : Obj) :
    getKey (finnProfileUpdate base p) "currency" = some (getD p "currency" (.str "USD")) := by
  simp only [finnProfileUpdate, updMany]
  rw [getKey_setKey_ne _ _ _ _ (by decide), getKey_setKey_ne _ _ _ _ (by decide),
      getKey_setKey_ne _ _ _ _ (by decide), getKey_setKey_ne _ _ _ _ (by decide),
      getKey_setKey_ne _ _ _ _ (by decide), getKey_setKey_self]

theorem getKey_finnProfileUpdate_exchange (base p : Obj) :
    getKey (finnProfileUpdate base p) "exchange" = some (getD p "exchange" (.str "Unknown")) := by
  simp only [finnProfileUpdate, updMany]
  rw [getKey_setKey_ne _ _ _ _ (by decide), getKey_setKey_ne _ _ _ _ (by decide),
      getKey_setKey_ne _ _ _ _ (by decide), getKey_setKey_ne _ _ _ _ (by decide),
      getKey_setKey_self]

theorem getKey_finnProfileUpdate_industry (base p : Obj) :
    getKey (finnProfileUpdate base p) "industry" =
      some (getD p "finnhubIndustry" (.str "Unknown")) := by
  simp only [finnProfileUpdate, updMany]
  rw [getKey_setKey_ne _ _ _ _ (by decide), getKey_setKey_ne _ _ _ _ (by decide),
      getKey_setKey_ne _ _ _ _ (by decide), getKey_setKey_self]

theorem getKey_finnProfileUpdate_sector (base p : Obj) :
    getKey (finnProfileUpdate base p) "sector" = getKey base "sector" := by
  simp only [finnProfileUpdate, updMany]
  rw [getKey_setKey_ne _ _ _ _ (by decide), getKey_setKey_ne _ _ _ _ (by decide),
      getKey_setKey_ne _ _ _ _ (by decide), getKey_setKey_ne _ _ _ _ (by decide),
      getKey_setKey_ne _ _ _ _ (by decide), getKey_setKey_ne _ _ _ _ (by decide),
      getKey_setKey_ne _ _ _ _ (by decide)]

theorem finnProfileUpdate_ne_nil (base p : Obj) (h : base ≠ []) :
    finnProfileUpdate base p ≠ [] := by
  simp only [finnProfileUpdate]
  exact updMany_ne_nil _ _ h

/-! ## Claims -/

/-- C1: `get_stock_detail` tries the three adapters in the fixed order Yahoo
Finance, Alpha Vantage, Finnhub; it returns the first non-NotFound result (an
earlier hit means no later adapter is invoked; in particular Yahoo NotFound and
Alpha Vantage a valid quote means the result is Alpha Vantage's normalized
quote and Finnhub is never invoked), and it yields NotFound only when all three
adapters return NotFound. -/
theorem C1_fallback_resolver_order
    (sym now1 now2 now3 : String) (yinfo : Option Obj)
    (rc : ℕ) (net : NetOutcome (List (String × AVDict)))
    (fq fp : Option Obj) :
    (YahooFinanceClient.get_stock_data sym yinfo now1 ≠ none →
      (get_stock_detail_resolve (YahooFinanceClient.get_stock_data sym yinfo now1)
          ((AlphaVantageClient.get_stock_data rc sym net now2).1)
          (FinnhubClient.get_stock_data sym fq fp now3)).result =
        YahooFinanceClient.get_stock_data sym yinfo now1 ∧
      (get_stock_detail_resolve (YahooFinanceClient.get_stock_data sym yinfo now1)
          ((AlphaVantageClient.get_stock_data rc sym net now2).1)
          (FinnhubClient.get_stock_data sym fq fp now3)).alpha_called = false ∧
      (get_stock_detail_resolve (YahooFinanceClient.get_stock_data sym yinfo now1)
          ((AlphaVantageClient.get_stock_data rc sym net now2).1)
          (FinnhubClient.get_stock_data sym fq fp now3)).finnhub_called = false) ∧
    (YahooFinanceClient.get_stock_data sym yinfo now1 = none →
      (AlphaVantageClient.get_stock_data rc sym net now2).1 ≠ none →
      (get_stock_detail_resolve (YahooFinanceClient.get_stock_data sym yinfo now1)
          ((AlphaVantageClient.get_stock_data rc sym net now2).1)
          (FinnhubClient.get_stock_data sym fq fp now3)).result =
        (AlphaVantageClient.get_stock_data rc sym net now2).1 ∧
      (get_stock_detail_resolve (YahooFinanceClient.get_stock_data sym yinfo now1)
          ((AlphaVantageClient.get_stock_data rc sym net now2).1)
          (FinnhubClient.get_stock_data sym fq fp now3)).finnhub_called = false) ∧
    (YahooFinanceClient.get_stock_data sym yinfo now1 = none →
      (AlphaVantageClient.get_stock_data rc sym net now2).1 = none →
      (get_stock_detail_resolve (YahooFinanceClient.get_stock_data sym yinfo now1)
          ((AlphaVantageClient.get_stock_data rc sym net now2).1)
          (FinnhubClient.get_stock_data sym fq fp now3)).result =
        FinnhubClient.get_stock_data sym fq fp now3) ∧
    ((get_stock_detail_resolve (YahooFinanceClient.get_stock_data sym yinfo now1)
          ((AlphaVantageClient.get_stock_data rc sym net now2).1)
          (FinnhubClient.get_stock_data sym fq fp now3)).result = none ↔
      (YahooFinanceClient.get_stock_data sym yinfo now1 = none ∧
        (AlphaVantageClient.get_stock_data rc sym net now2).1 = none ∧
        FinnhubClient.get_stock_data sym fq fp now3 = none)) := by
  have hy : ∀ r, YahooFinanceClient.get_stock_data sym yinfo now1 = some r → r ≠ [] := by
    intro r h
    obtain ⟨info, _, _, _, hr⟩ := yahoo_get_stock_data_some h
    rw [hr]; exact yahooRecord_ne_nil _ _ _
  have ha : ∀ r, (AlphaVantageClient.get_stock_data rc sym net now2).1 = some r → r ≠ [] := by
    intro r h
    obtain ⟨p, c, cp, v, hi, lo, o, pc, hr⟩ := av_get_stock_data_some h
    rw [hr]; exact avRecord_ne_nil _ _ _ _ _ _ _ _ _ _
  have htr : ∀ x : Option Obj, (∀ r, x = some r → r ≠ []) → x ≠ none →
      objTruthy x = true := by
    intro x hx hne
    cases x with
    | none => exact absurd rfl hne
    | some r => simpa [objTruthy] using hx r rfl
  refine ⟨?_, ?_, ?_, ?_⟩
  · intro hne
    have := htr _ hy hne
    simp [get_stock_detail_resolve, this]
  · intro hyn hne
    have hat := htr _ ha hne
    have hyf : objTruthy (YahooFinanceClient.get_stock_data sym yinfo now1) = false := by
      rw [hyn]; rfl
    simp [get_stock_detail_resolve, hyf, hat]
  · intro hyn han
    have hyf : objTruthy (YahooFinanceClient.get_stock_data sym yinfo now1) = false := by
      rw [hyn]; rfl
    have haf : objTruthy ((AlphaVantageClient.get_stock_data rc sym net now2).1) = false := by
      rw [han]; rfl
    simp [get_stock_detail_resolve, hyf, haf]
  · constructor
    · intro hres
      by_cases hyt : objTruthy (YahooFinanceClient.get_stock_data sym yinfo now1) = true
      · rw [get_stock_detail_resolve, if_pos hyt] at hres
        simp only at hres
        rw [hres] at hyt
        exact absurd hyt (by simp [objTruthy])
      · rw [get_stock_detail_resolve, if_neg hyt] at hres
        by_cases hat : objTruthy ((AlphaVantageClient.get_stock_data rc sym net now2).1) = true
        · rw [if_pos hat] at hres
          simp only at hres
          rw [hres] at hat
          exact absurd hat (by simp [objTruthy])
        · rw [if_neg hat] at hres
          simp only at hres
          have hyn : YahooFinanceClient.get_stock_data sym yinfo now1 = none := by
            cases hE : YahooFinanceClient.get_stock_data sym yinfo now1 with
            | none => rfl
            | some r =>
              exact absurd (by simp [objTruthy, hy r hE]) (hE ▸ hyt)
          have han : (AlphaVantageClient.get_stock_data rc sym net now2).1 = none := by
            cases hE : (AlphaVantageClient.get_stock_data rc sym net now2).1 with
            | none => rfl
            | some r =>
              exact absurd (by simp [objTruthy, ha r hE]) (hE ▸ hat)
          exact ⟨hyn, han, hres⟩
    · rintro ⟨hyn, han, hfn⟩
      have hyf : objTruthy (YahooFinanceClient.get_stock_data sym yinfo now1) = false := by
        rw [hyn]; rfl
      have haf : objTruthy ((AlphaVantageClient.get_stock_data rc sym net now2).1) = false := by
        rw [han]; rfl
      simp [get_stock_detail_resolve, hyf, haf, hfn]

theorem C1_fallback_resolver_order_witness :
    YahooFinanceClient.get_stock_data "AAPL" none "t" = none ∧
    (AlphaVantageClient.get_stock_data 0 "AAPL"
        (.status 200 [("Global Quote", [("05. price", "150.0")])]) "t").1 ≠ none ∧
    (get_stock_detail_resolve (YahooFinanceClient.get_stock_data "AAPL" none "t")
        ((AlphaVantageClient.get_stock_data 0 "AAPL"
            (.status 200 [("Global Quote", [("05. price", "150.0")])]) "t").1)
        (FinnhubClient.get_stock_data "AAPL" none none "t")).result =
      (AlphaVantageClient.get_stock_data 0 "AAPL"
        (.status 200 [("Global Quote", [("05. price", "150.0")])]) "t").1 ∧
    (get_stock_detail_resolve (YahooFinanceClient.get_stock_data "AAPL" none "t")
        ((AlphaVantageClient.get_stock_data 0 "AAPL"
            (.status 200 [("Global Quote", [("05. price", "150.0")])]) "t").1)
        (FinnhubClient.get_stock_data "AAPL" none none "t")).finnhub_called = false := by
  have hy : YahooFinanceClient.get_stock_data "AAPL" none "t" = none := rfl
  have ha : (AlphaVantageClient.get_stock_data 0 "AAPL"
      (.status 200 [("Global Quote", [("05. price", "150.0")])]) "t").1 =
      some (avRecord "AAPL" 150 0 0 0 0 0 0 0 "t") := by
    simp [AlphaVantageClient.get_stock_data, AlphaVantageClient.make_request,
          avBuildRecord, avFloatField, avChangePercentField, avIntField,
          getKey, getD, stripPct, floatOfString, splitFrac, digitsToNat, digitVal,
          bind]
  have h := C1_fallback_resolver_order "AAPL" "t" "t" "t" none 0
    (.status 200 [("Global Quote", [("05. price", "150.0")])]) none none
  have h2 := h.2.1 hy (by rw [ha]; simp)
  exact ⟨hy, by rw [ha]; simp, h2.1, h2.2⟩

/-- C2: for each of the three adapters, a quote payload missing the mandatory
price-bearing field (`05. price` for Alpha Vantage, `c` for Finnhub,
`regularMarketPrice` for Yahoo) makes `get_stock_data` return NotFound; the
embedded functions are total, so no exception reaches the caller. -/
theorem C2_missing_price_is_notfound
    (rc : ℕ) (sym now : String) (code : ℕ)
    (data : List (String × AVDict)) (quote : AVDict)
    (qd : Obj) (profile : Option Obj) (info : Obj) :
    (getKey data "Global Quote" = some quote → getKey quote "05. price" = none →
      (AlphaVantageClient.get_stock_data rc sym (.status code data) now).1 = none) ∧
    (getKey qd "c" = none →
      FinnhubClient.get_stock_data sym (some qd) profile now = none) ∧
    (getKey info "regularMarketPrice" = none →
      YahooFinanceClient.get_stock_data sym (some info) now = none) := by
  refine ⟨?_, ?_, ?_⟩
  · intro hq hp
    have hb : avBuildRecord sym quote now = none := by
      unfold avBuildRecord
      split
      · rfl
      · simp [hp]
    unfold AlphaVantageClient.get_stock_data AlphaVantageClient.make_request
    split
    · rfl
    · by_cases hc : code = 200 <;> simp [hc, bind, hq, hb]
  · intro hc
    unfold FinnhubClient.get_stock_data
    simp only
    split
    · rfl
    · simp [hc]
  · intro hp
    unfold YahooFinanceClient.get_stock_data
    simp only
    split
    · rfl
    · simp [hp]

theorem C2_missing_price_is_notfound_witness :
    getKey [("Global Quote", [("01. symbol", "AAPL")])] "Global Quote" =
      some [("01. symbol", "AAPL")] ∧
    getKey [("01. symbol", "AAPL")] "05. price" = none ∧
    (AlphaVantageClient.get_stock_data 0 "AAPL"
        (.status 200 [("Global Quote", [("01. symbol", "AAPL")])]) "t").1 = none ∧
    getKey [("d", PyVal.num 1)] "c" = none ∧
    FinnhubClient.get_stock_data "AAPL" (some [("d", PyVal.num 1)]) none "t" = none ∧
    getKey [("longName", PyVal.str "Apple")] "regularMarketPrice" = none ∧
    YahooFinanceClient.get_stock_data "AAPL" (some [("longName", PyVal.str "Apple")]) "t" =
      none := by
  have h := C2_missing_price_is_notfound 0 "AAPL" "t" 200
    [("Global Quote", [("01. symbol", "AAPL")])] [("01. symbol", "AAPL")]
    [("d", PyVal.num 1)] none [("longName", PyVal.str "Apple")]
  exact ⟨by decide, by decide, h.1 (by decide) (by decide), by decide,
         h.2.1 (by decide), by decide, h.2.2 (by decide)⟩

/-- C3 counterexample: on the empty universe `calculate_portfolio_performance`
returns the empty dict `{}` (the early `return {}`), which is structurally
different from the claimed zero-valued record
`{total_stocks: 0, total_market_cap: 0, avg_change: 0}`. -/
theorem C3_empty_universe_counterexample :
    DataProcessor.calculate_portfolio_performance []
        ⟨true, 0, false, 0, 0, false, .null, .null⟩ "t" = PerfResult.empty ∧
    (PerfResult.empty : PerfResult) ≠
      PerfResult.perf ⟨0, 0, 0, [], none, "t"⟩ := by
  exact ⟨rfl, by decide⟩

/-- C3 (amended): on the empty universe `calculate_portfolio_performance`
returns the empty dict `{}` without raising — an empty result, but not the
zero-filled record the claim states. -/
theorem C3_empty_universe_rollup (trades : TradesDF) (now : String) :
    DataProcessor.calculate_portfolio_performance [] trades now = PerfResult.empty :=
  rfl

/-- C10: the `change_percent` recomputation in `get_enhanced_stocks_data`
divides by `price - change` under only a `price > 0` guard; a record with
`price > 0` and `change = price` hits a `ZeroDivisionError`, so the
enhancement (and with it the whole aggregation pass and
`calculate_portfolio_performance`) raises instead of producing a result. -/
theorem C10_change_percent_division_by_zero (stock : Obj) (price : ℚ)
    (hp : getKey stock "price" = some (.num price))
    (hc : getKey stock "change" = some (.num price))
    (hpos : 0 < price) :
    DataProcessor.enhance_stock stock = none ∧
    ∀ pre post : List Obj,
      DataProcessor.get_enhanced_stocks_data (pre ++ stock :: post) = none ∧
      ∀ (trades : TradesDF) (now : String),
        DataProcessor.calculate_portfolio_performance (pre ++ stock :: post)
          trades now = PerfResult.error := by
  have he : DataProcessor.enhance_stock stock = none := by
    unfold DataProcessor.enhance_stock
    cases hmc : asNum (getD stock "market_cap" (.num 0)) with
    | none => rfl
    | some mc => simp [getD, hp, hc, asNum, hpos, sub_self]
  have happ : ∀ pre post : List Obj,
      DataProcessor.get_enhanced_stocks_data (pre ++ stock :: post) = none := by
    intro pre post
    induction pre with
    | nil => simp [DataProcessor.get_enhanced_stocks_data, he]
    | cons s r ih =>
      simp only [List.cons_append, DataProcessor.get_enhanced_stocks_data]
      cases DataProcessor.enhance_stock s with
      | none => rfl
      | some e => simp [ih]
  refine ⟨he, fun pre post => ⟨happ pre post, fun trades now => ?_⟩⟩
  unfold DataProcessor.calculate_portfolio_performance
  rw [happ pre post]

theorem C10_change_percent_division_by_zero_witness :
    getKey [("price", PyVal.num 10), ("change", PyVal.num 10)] "price" =
      some (PyVal.num 10) ∧
    getKey [("price", PyVal.num 10), ("change", PyVal.num 10)] "change" =
      some (PyVal.num 10) ∧
    (0 : ℚ) < 10 ∧
    DataProcessor.enhance_stock [("price", PyVal.num 10), ("change", PyVal.num 10)] =
      none ∧
    DataProcessor.calculate_portfolio_performance
      [[("price", PyVal.num 10), ("change", PyVal.num 10)]]
      ⟨true, 0, false, 0, 0, false, .null, .null⟩ "t" = PerfResult.error := by
  have h1 : getKey [("price", PyVal.num 10), ("change", PyVal.num 10)] "price" =
      some (PyVal.num 10) := by simp [getKey]
  have h2 : getKey [("price", PyVal.num 10), ("change", PyVal.num 10)] "change" =
      some (PyVal.num 10) := by simp [getKey]
  have h3 : (0 : ℚ) < 10 := by norm_num
  have h := C10_change_percent_division_by_zero
    [("price", PyVal.num 10), ("change", PyVal.num 10)] 10 h1 h2 h3
  have h4 := (h.2 [] []).2 ⟨true, 0, false, 0, 0, false, .null, .null⟩ "t"
  exact ⟨h1, h2, h3, h.1, by simpa using h4⟩

/-- C7: the market-cap bucketing of `get_enhanced_stocks_data` uses strict
`>` thresholds — above 200B Mega Cap, above 10B Large Cap, above 2B Mid Cap,
above 300M Small Cap, else Micro Cap; in particular 200_000_000_001 is Mega
Cap and 200_000_000_000 is Large Cap, and every enhanced record carries
`cap_category = capCategory market_cap`. -/
theorem C7_market_cap_bucketing :
    (∀ mc : ℚ,
      (capCategory mc = "Mega Cap" ↔ 200000000000 < mc) ∧
      (capCategory mc = "Large Cap" ↔ 10000000000 < mc ∧ mc ≤ 200000000000) ∧
      (capCategory mc = "Mid Cap" ↔ 2000000000 < mc ∧ mc ≤ 10000000000) ∧
      (capCategory mc = "Small Cap" ↔ 300000000 < mc ∧ mc ≤ 2000000000) ∧
      (capCategory mc = "Micro Cap" ↔ mc ≤ 300000000)) ∧
    capCategory 200000000001 = "Mega Cap" ∧
    capCategory 200000000000 = "Large Cap" ∧
    (∀ (stock r : Obj) (mc : ℚ), getKey stock "market_cap" = some (.num mc) →
      DataProcessor.enhance_stock stock = some r →
      getKey r "cap_category" = some (.str (capCategory mc))) := by
  refine ⟨?_, by norm_num [capCategory], by norm_num [capCategory], ?_⟩
  · intro mc
    unfold capCategory
    split_ifs with h1 h2 h3 h4 <;>
      refine ⟨?_, ?_, ?_, ?_, ?_⟩ <;> constructor <;> intro h <;>
      simp_all <;> first
        | linarith
        | (exact ⟨by linarith, by linarith⟩)
  · intro stock r mc hmc he
    unfold DataProcessor.enhance_stock at he
    rw [show getD stock "market_cap" (.num 0) = .num mc by simp [getD, hmc]] at he
    cases hp : asNum (getD stock "price" (.num 0)) with
    | none =>
      rw [hp] at he
      simp [asNum] at he
    | some price =>
      rw [hp] at he
      cases hc : asNum (getD stock "change" (.num 0)) with
      | none =>
        rw [hc] at he
        simp only [asNum] at he
        by_cases hpos : price > 0
        · rw [if_pos hpos] at he; simp at he
        · rw [if_neg hpos] at he
          simp only [Option.some.injEq] at he
          rw [← he, getKey_setKey_ne _ _ _ _ (by decide), getKey_setKey_self]
      | some change =>
        rw [hc] at he
        simp only [asNum] at he
        by_cases hpos : price > 0
        · rw [if_pos hpos] at he
          by_cases hz : price - change = 0
          · rw [if_pos hz] at he; simp at he
          · rw [if_neg hz] at he
            simp only [Option.some.injEq] at he
            rw [← he, getKey_setKey_ne _ _ _ _ (by decide), getKey_setKey_self]
        · rw [if_neg hpos] at he
          simp only [Option.some.injEq] at he
          rw [← he, getKey_setKey_ne _ _ _ _ (by decide), getKey_setKey_self]

theorem C7_market_cap_bucketing_witness :
    getKey [("market_cap", PyVal.num 200000000001)] "market_cap" =
      some (PyVal.num 200000000001) ∧
    DataProcessor.enhance_stock [("market_cap", PyVal.num 200000000001)] =
      some [("market_cap", PyVal.num 200000000001),
            ("cap_category", PyVal.str "Mega Cap"),
            ("change_percent", PyVal.num 0)] ∧
    getKey [("market_cap", PyVal.num 200000000001),
            ("cap_category", PyVal.str "Mega Cap"),
            ("change_percent", PyVal.num 0)] "cap_category" =
      some (PyVal.str (capCategory 200000000001)) := by
  have h1 : getKey [("market_cap", PyVal.num 200000000001)] "market_cap" =
      some (PyVal.num 200000000001) := by simp [getKey]
  have h2 : DataProcessor.enhance_stock [("market_cap", PyVal.num 200000000001)] =
      some [("market_cap", PyVal.num 200000000001),
            ("cap_category", PyVal.str "Mega Cap"),
            ("change_percent", PyVal.num 0)] := by
    simp [DataProcessor.enhance_stock, getD, getKey, asNum, capCategory, setKey] <;>
      norm_num
  exact ⟨h1, h2, C7_market_cap_bucketing.2.2.2 _ _ _ h1 h2⟩

/-- C8: the Alpha Vantage daily cap — once `request_count` has reached 25,
`get_stock_data` and `get_historical_data` return NotFound at once, issue no
network request and leave the counter untouched; and no operation of the
client ever decreases the counter, so the exhausted state persists for the
client's lifetime. -/
theorem C8_daily_cap_exhaustion :
    (∀ (rc : ℕ) (sym : String) (net : NetOutcome (List (String × AVDict)))
        (now : String), 25 ≤ rc →
      AlphaVantageClient.get_stock_data rc sym net now = (none, rc, false)) ∧
    (∀ (rc : ℕ) (sym : String)
        (net : NetOutcome (List (String × List (String × AVDict)))), 25 ≤ rc →
      AlphaVantageClient.get_historical_data rc sym net = (none, rc, false)) ∧
    (∀ (α : Type) (rc : ℕ) (net : NetOutcome α),
      rc ≤ (AlphaVantageClient.make_request rc net).2.1) ∧
    (∀ (rc : ℕ) (sym : String) (net : NetOutcome (List (String × AVDict)))
        (now : String),
      rc ≤ (AlphaVantageClient.get_stock_data rc sym net now).2.1) ∧
    (∀ (rc : ℕ) (sym : String)
        (net : NetOutcome (List (String × List (String × AVDict)))),
      rc ≤ (AlphaVantageClient.get_historical_data rc sym net).2.1) := by
  refine ⟨?_, ?_, ?_, ?_, ?_⟩
  · intro rc sym net now h
    simp [AlphaVantageClient.get_stock_data, h]
  · intro rc sym net h
    simp [AlphaVantageClient.get_historical_data, h]
  · intro α rc net
    cases net <;> simp [AlphaVantageClient.make_request]
  · intro rc sym net now
    unfold AlphaVantageClient.get_stock_data
    split
    · simp
    · cases net <;> simp [AlphaVantageClient.make_request]
  · intro rc sym net
    unfold AlphaVantageClient.get_historical_data
    split
    · simp
    · cases net <;> simp [AlphaVantageClient.make_request]

theorem C8_daily_cap_exhaustion_witness :
    (25 : ℕ) ≤ 25 ∧
    AlphaVantageClient.get_stock_data 25 "AAPL"
      (NetOutcome.status 200 [("Global Quote", [("05. price", "150.0")])]) "t" =
      (none, 25, false) ∧
    AlphaVantageClient.get_historical_data 25 "AAPL" NetOutcome.exn =
      (none, 25, false) := by
  exact ⟨by norm_num,
    C8_daily_cap_exhaustion.1 25 "AAPL"
      (NetOutcome.status 200 [("Global Quote", [("05. price", "150.0")])]) "t"
      (by norm_num),
    C8_daily_cap_exhaustion.2.1 25 "AAPL" NetOutcome.exn (by norm_num)⟩

/-- C4 counterexample: `YahooFinanceClient.get_historical_data` contains no
sort — it emits the frame's rows in provider order, so raw bars dated
2024-01-01, 2024-01-03, 2024-01-02 come back in exactly that order, not
newest-first as the claim requires of every adapter. -/
theorem C4_yahoo_history_unsorted_counterexample :
    YahooFinanceClient.get_historical_data "AAPL"
      [⟨"2024-01-01", 1, 1, 1, 1, 100⟩, ⟨"2024-01-03", 1, 1, 1, 1, 100⟩,
       ⟨"2024-01-02", 1, 1, 1, 1, 100⟩] =
      some [⟨"2024-01-01", 1, 1, 1, 1, 100⟩, ⟨"2024-01-03", 1, 1, 1, 1, 100⟩,
            ⟨"2024-01-02", 1, 1, 1, 1, 100⟩] ∧
    newestFirstB
      [⟨"2024-01-01", 1, 1, 1, 1, 100⟩, ⟨"2024-01-03", 1, 1, 1, 1, 100⟩,
       ⟨"2024-01-02", 1, 1, 1, 1, 100⟩] = false := by
  constructor
  · simp [YahooFinanceClient.get_historical_data, truncQ]
  · decide

/-- C4 (amended): the Alpha Vantage and Finnhub historical series are sorted
newest-first whatever order the provider returned (both clients sort
explicitly); the Yahoo client returns the provider's own row order and is the
exception, per the counterexample. -/
theorem C4_history_sorted_newest_first :
    (∀ (rc : ℕ) (sym : String)
        (net : NetOutcome (List (String × List (String × AVDict))))
        (bars : List Bar),
      (AlphaVantageClient.get_historical_data rc sym net).1 = some bars →
      newestFirstB bars = true) ∧
    (∀ (dateOf : ℤ → String) (sym : String) (resp : Option FinnCandles)
        (bars : List Bar),
      FinnhubClient.get_historical_data dateOf sym resp = some bars →
      newestFirstB bars = true) := by
  constructor
  · intro rc sym net bars h
    unfold AlphaVantageClient.get_historical_data at h
    split at h
    · simp at h
    · simp only [bind, Option.bind_eq_some, Option.pure_def, Option.some.injEq] at h
      obtain ⟨data, _, ts, _, bs, _, hb⟩ := h
      rw [← hb]
      exact mergeSort_newestFirst bs
  · intro dateOf sym resp bars h
    unfold FinnhubClient.get_historical_data at h
    cases resp with
    | none => simp at h
    | some d =>
      simp only at h
      split at h
      · simp at h
      · split at h
        · simp at h
        · rename_i bs hbs
          rw [← Option.some.inj h]
          exact mergeSort_newestFirst bs

theorem C4_history_sorted_newest_first_witness :
    FinnhubClient.get_historical_data
      (fun z => if z < 20240102 then "2024-01-01" else "2024-01-02") "AAPL"
      (some ⟨some (PyVal.str "ok"), [20240101, 20240102], [1, 1], [1, 1], [1, 1],
             [1, 1], [100, 100]⟩) =
      some [⟨"2024-01-02", 1, 1, 1, 1, 100⟩, ⟨"2024-01-01", 1, 1, 1, 1, 100⟩] ∧
    newestFirstB [⟨"2024-01-02", 1, 1, 1, 1, 100⟩, ⟨"2024-01-01", 1, 1, 1, 1, 100⟩] =
      true := by
  have he : FinnhubClient.get_historical_data
      (fun z => if z < 20240102 then "2024-01-01" else "2024-01-02") "AAPL"
      (some ⟨some (PyVal.str "ok"), [20240101, 20240102], [1, 1], [1, 1], [1, 1],
             [1, 1], [100, 100]⟩) =
      some [⟨"2024-01-02", 1, 1, 1, 1, 100⟩, ⟨"2024-01-01", 1, 1, 1, 1, 100⟩] := by
    simp [FinnhubClient.get_historical_data, finnZip, truncQ, List.mergeSort,
          List.merge, barDesc, strLe, charListLe]
  exact ⟨he, C4_history_sorted_newest_first.2 _ "AAPL" _ _ he⟩

theorem finnZip_length (dateOf : ℤ → String) :
    ∀ (t : List ℤ) (o h l c v : List ℚ) (bars : List Bar),
      finnZip dateOf t o h l c v = some bars → bars.length = t.length := by
  intro t
  induction t with
  | nil =>
    intro o h l c v bars hb
    simp [finnZip] at hb
    simp [← hb]
  | cons x tr ih =>
    intro o h l c v bars hb
    cases o with
    | nil => simp [finnZip] at hb
    | cons o1 og =>
      cases h with
      | nil => simp [finnZip] at hb
      | cons h1 hg =>
        cases l with
        | nil => simp [finnZip] at hb
        | cons l1 lg =>
          cases c with
          | nil => simp [finnZip] at hb
          | cons c1 cg =>
            cases v with
            | nil => simp [finnZip] at hb
            | cons v1 vg =>
              cases hrec : finnZip dateOf tr og hg lg cg vg with
              | none => simp [finnZip, hrec] at hb
              | some bs =>
                simp only [finnZip, hrec] at hb
                have hlen := ih og hg lg cg vg bs hrec
                rw [← Option.some.inj hb]
                simp [hlen]

theorem finnZip_none_of_short (dateOf : ℤ → String) :
    ∀ (t : List ℤ) (o h l c v : List ℚ),
      (o.length < t.length ∨ h.length < t.length ∨ l.length < t.length ∨
        c.length < t.length ∨ v.length < t.length) →
      finnZip dateOf t o h l c v = none := by
  intro t
  induction t with
  | nil =>
    intro o h l c v hlt
    simp at hlt
  | cons x tr ih =>
    intro o h l c v hlt
    cases o with
    | nil => rfl
    | cons o1 og =>
      cases h with
      | nil => rfl
      | cons h1 hg =>
        cases l with
        | nil => rfl
        | cons l1 lg =>
          cases c with
          | nil => rfl
          | cons c1 cg =>
            cases v with
            | nil => rfl
            | cons v1 vg =>
              have hrec : finnZip dateOf tr og hg lg cg vg = none := by
                apply ih
                simp only [List.length_cons] at hlt
                omega
              simp [finnZip, hrec]

theorem finnZip_some_of_le (dateOf : ℤ → String) :
    ∀ (t : List ℤ) (o h l c v : List ℚ),
      t.length ≤ o.length → t.length ≤ h.length → t.length ≤ l.length →
      t.length ≤ c.length → t.length ≤ v.length →
      ∃ bars, finnZip dateOf t o h l c v = some bars := by
  intro t
  induction t with
  | nil => intro o h l c v _ _ _ _ _; exact ⟨[], rfl⟩
  | cons x tr ih =>
    intro o h l c v ho hh hl hc hv
    cases o with
    | nil => simp at ho
    | cons o1 og =>
      cases h with
      | nil => simp at hh
      | cons h1 hg =>
        cases l with
        | nil => simp at hl
        | cons l1 lg =>
          cases c with
          | nil => simp at hc
          | cons c1 cg =>
            cases v with
            | nil => simp at hv
            | cons v1 vg =>
              obtain ⟨bs, hbs⟩ := ih og hg lg cg vg
                (by simpa using ho) (by simpa using hh) (by simpa using hl)
                (by simpa using hc) (by simpa using hv)
              exact ⟨⟨dateOf x, o1, h1, l1, c1, truncQ v1⟩ :: bs, by simp [finnZip, hbs]⟩

/-- C6 counterexample: the Finnhub zip loop is driven by
`range(len(timestamps))`, so when the timestamp array is the shortest one the
extra entries of the value arrays are silently dropped — here mismatched
lengths (1 timestamp, 2 of everything else) produce a one-bar series instead
of NotFound. -/
theorem C6_finnhub_zip_truncates_counterexample :
    FinnhubClient.get_historical_data (fun _ => "2024-01-01") "AAPL"
      (some ⟨some (PyVal.str "ok"), [0], [1, 2], [1, 2], [1, 2], [1, 2],
             [100, 200]⟩) =
      some [⟨"2024-01-01", 1, 1, 1, 1, 100⟩] := by
  simp [FinnhubClient.get_historical_data, finnZip, truncQ, List.mergeSort]

/-- C6 (amended): `FinnhubClient.get_historical_data` reconstructs per-day
bars by zipping the parallel arrays by index, driven by the timestamp array:
whenever any value array is shorter than the timestamp array the whole series
is NotFound (the `IndexError` folds into the catch-all), but when the value
arrays are at least as long as the timestamp array the series succeeds with
exactly one bar per timestamp — so value arrays longer than the timestamp
array are silently truncated rather than rejected. -/
theorem C6_finnhub_zip_fail_closed (dateOf : ℤ → String) (sym : String)
    (d : FinnCandles) :
    (d.s = some (PyVal.str "ok") →
      (d.o.length < d.t.length ∨ d.h.length < d.t.length ∨
        d.l.length < d.t.length ∨ d.c.length < d.t.length ∨
        d.v.length < d.t.length) →
      FinnhubClient.get_historical_data dateOf sym (some d) = none) ∧
    (d.s = some (PyVal.str "ok") →
      d.t.length ≤ d.o.length → d.t.length ≤ d.h.length →
      d.t.length ≤ d.l.length → d.t.length ≤ d.c.length →
      d.t.length ≤ d.v.length →
      ∃ bars, FinnhubClient.get_historical_data dateOf sym (some d) = some bars ∧
        bars.length = d.t.length) := by
  constructor
  · intro hs hlt
    simp only [FinnhubClient.get_historical_data]
    rw [if_neg (by simp [hs])]
    rw [finnZip_none_of_short dateOf _ _ _ _ _ _ hlt]
  · intro hs ho hh hl hc hv
    obtain ⟨bars, hb⟩ := finnZip_some_of_le dateOf _ _ _ _ _ _ ho hh hl hc hv
    refine ⟨bars.mergeSort barDesc, ?_, ?_⟩
    · simp only [FinnhubClient.get_historical_data]
      rw [if_neg (by simp [hs]), hb]
    · rw [List.length_mergeSort]
      exact finnZip_length dateOf _ _ _ _ _ _ _ hb

theorem C6_finnhub_zip_fail_closed_witness :
    FinnhubClient.get_historical_data (fun _ => "2024-01-01") "AAPL"
      (some ⟨some (PyVal.str "ok"), [0, 1], [1], [1], [1], [1], [1]⟩) = none := by
  exact (C6_finnhub_zip_fail_closed (fun _ => "2024-01-01") "AAPL"
      ⟨some (PyVal.str "ok"), [0, 1], [1], [1], [1], [1], [1]⟩).1
    rfl (by simp)

/-- C5 counterexample: with a valid price but `10. change percent` equal to
`"bad%"`, `float("bad")` raises `ValueError`, the catch-all returns `None`,
and the whole quote is NotFound — the malformed percentage is not coerced
to `0` and no record is produced, contrary to the claim. -/
theorem C5_percent_coercion_counterexample :
    (AlphaVantageClient.get_stock_data 0 "AAPL"
        (.status 200 [("Global Quote",
          [("05. price", "150.0"), ("10. change percent", "bad%")])]) "t").1 =
      none := by
  simp [AlphaVantageClient.get_stock_data, AlphaVantageClient.make_request,
        avBuildRecord, avFloatField, avChangePercentField, avIntField,
        getKey, getD, stripPct, floatOfString, splitFrac, digitsToNat, digitVal,
        bind]

/-- C5 (amended): the percent-string coercion strips the trailing `%` before
`float` conversion, so `"1.23%"` yields 1.23; but a malformed value such as
`"bad%"` raises `ValueError`, which the adapter's catch-all folds into
NotFound for the whole quote — it is not coerced to 0 and the record is
lost. -/
theorem C5_percent_coercion (quote : AVDict) :
    (getKey quote "10. change percent" = some "1.23%" →
      avChangePercentField quote = some (123 / 100)) ∧
    (getKey quote "10. change percent" = some "bad%" →
      avChangePercentField quote = none) ∧
    (∀ (rc : ℕ) (sym now : String) (data : List (String × AVDict)),
      getKey data "Global Quote" = some quote →
      getKey quote "10. change percent" = some "bad%" →
      (AlphaVantageClient.get_stock_data rc sym (.status 200 data) now).1 =
        none) := by
  have hbad : ∀ q : AVDict, getKey q "10. change percent" = some "bad%" →
      avChangePercentField q = none := by
    intro q hq
    unfold avChangePercentField
    rw [show getD q "10. change percent" "0%" = "bad%" by simp [getD, hq]]
    rw [show stripPct "bad%" = "bad" from rfl]
    decide
  refine ⟨?_, hbad quote, ?_⟩
  · intro hq
    unfold avChangePercentField
    rw [show getD quote "10. change percent" "0%" = "1.23%" by simp [getD, hq]]
    rw [show stripPct "1.23%" = "1.23" from rfl]
    simp [floatOfString, splitFrac, digitsToNat, digitVal]
    norm_num
  · intro rc sym now data hd hq
    have hbr : avBuildRecord sym quote now = none := by
      unfold avBuildRecord
      split
      · rfl
      · split
        · rfl
        · cases avFloatField quote "05. price" <;>
            cases avFloatField quote "09. change" <;>
            simp [bind, hbad quote hq]
    unfold AlphaVantageClient.get_stock_data AlphaVantageClient.make_request
    split
    · rfl
    · simp [bind, hd, hbr]

theorem C5_percent_coercion_witness :
    getKey [("10. change percent", "1.23%")] "10. change percent" =
      some "1.23%" ∧
    avChangePercentField [("10. change percent", "1.23%")] = some (123 / 100) ∧
    getKey [("10. change percent", "bad%")] "10. change percent" =
      some "bad%" ∧
    avChangePercentField [("10. change percent", "bad%")] = none ∧
    getKey [("Global Quote", [("05. price", "150.0"), ("10. change percent", "bad%")])]
      "Global Quote" = some [("05. price", "150.0"), ("10. change percent", "bad%")] ∧
    (AlphaVantageClient.get_stock_data 0 "IBM"
        (.status 200 [("Global Quote",
          [("05. price", "150.0"), ("10. change percent", "bad%")])]) "t").1 =
      none := by
  refine ⟨by decide, (C5_percent_coercion [("10. change percent", "1.23%")]).1 (by decide),
    by decide, (C5_percent_coercion [("10. change percent", "bad%")]).2.1 (by decide),
    by decide,
    (C5_percent_coercion [("05. price", "150.0"), ("10. change percent", "bad%")]).2.2
      0 "IBM" "t" _ (by decide) (by decide)⟩

/-- C9 counterexample: a successful Alpha Vantage quote carries none of the
fields `sector`, `industry`, `country`, `currency`, `exchange` — the record
literal in `get_stock_data` simply never writes them, so they are absent,
not defaulted. -/
theorem C9_default_fields_counterexample :
    (AlphaVantageClient.get_stock_data 0 "AAPL"
        (.status 200 [("Global Quote", [("05. price", "150.0")])]) "t").1 =
      some (avRecord "AAPL" 150 0 0 0 0 0 0 0 "t") ∧
    getKey (avRecord "AAPL" 150 0 0 0 0 0 0 0 "t") "sector" = none ∧
    getKey (avRecord "AAPL" 150 0 0 0 0 0 0 0 "t") "industry" = none ∧
    getKey (avRecord "AAPL" 150 0 0 0 0 0 0 0 "t") "country" = none ∧
    getKey (avRecord "AAPL" 150 0 0 0 0 0 0 0 "t") "currency" = none ∧
    getKey (avRecord "AAPL" 150 0 0 0 0 0 0 0 "t") "exchange" = none := by
  refine ⟨?_, ?_, ?_, ?_, ?_, ?_⟩
  · simp [AlphaVantageClient.get_stock_data, AlphaVantageClient.make_request,
          avBuildRecord, avFloatField, avChangePercentField, avIntField,
          getKey, getD, stripPct, floatOfString, splitFrac, digitsToNat, digitVal,
          bind]
  all_goals simp [avRecord, getKey]

/-- C9 (amended): only the Yahoo adapter fills all five optional string
fields, with defaults "Unknown" (and "USD" for currency) when the payload
lacks them.  An Alpha Vantage quote never carries any of the five.  A Finnhub
quote never carries `sector`; it carries `country`, `currency`, `exchange`
and `industry` (defaults "Unknown"/"USD") exactly when the profile request
returned a truthy payload, and omits them when the profile is None or
empty. -/
theorem C9_default_fields_by_adapter :
    (∀ (sym now : String) (info r : Obj),
      YahooFinanceClient.get_stock_data sym (some info) now = some r →
      (getKey r "sector").isSome ∧ (getKey r "industry").isSome ∧
      (getKey r "country").isSome ∧ (getKey r "currency").isSome ∧
      (getKey r "exchange").isSome ∧
      (getKey info "sector" = none → getKey r "sector" = some (.str "Unknown")) ∧
      (getKey info "industry" = none → getKey r "industry" = some (.str "Unknown")) ∧
      (getKey info "country" = none → getKey r "country" = some (.str "Unknown")) ∧
      (getKey info "currency" = none → getKey r "currency" = some (.str "USD")) ∧
      (getKey info "exchange" = none → getKey r "exchange" = some (.str "Unknown"))) ∧
    (∀ (rc : ℕ) (sym now : String) (net : NetOutcome (List (String × AVDict)))
        (r : Obj),
      (AlphaVantageClient.get_stock_data rc sym net now).1 = some r →
      getKey r "sector" = none ∧ getKey r "industry" = none ∧
      getKey r "country" = none ∧ getKey r "currency" = none ∧
      getKey r "exchange" = none) ∧
    (∀ (sym now : String) (qr pr : Option Obj) (r : Obj),
      FinnhubClient.get_stock_data sym qr pr now = some r →
      getKey r "sector" = none ∧
      ((pr = none ∨ pr = some []) →
        getKey r "country" = none ∧ getKey r "currency" = none ∧
        getKey r "exchange" = none ∧ getKey r "industry" = none) ∧
      (∀ p : Obj, pr = some p → p ≠ [] →
        getKey r "country" = some (getD p "country" (.str "Unknown")) ∧
        getKey r "currency" = some (getD p "currency" (.str "USD")) ∧
        getKey r "exchange" = some (getD p "exchange" (.str "Unknown")) ∧
        getKey r "industry" = some (getD p "finnhubIndustry" (.str "Unknown")))) := by
  refine ⟨?_, ?_, ?_⟩
  · intro sym now info r h
    obtain ⟨info', hinfo, _, _, hr⟩ := yahoo_get_stock_data_some h
    obtain rfl : info' = info := by injection hinfo with hh; exact hh.symm
    subst hr
    refine ⟨by simp [yahooRecord, getKey], by simp [yahooRecord, getKey],
            by simp [yahooRecord, getKey], by simp [yahooRecord, getKey],
            by simp [yahooRecord, getKey], ?_, ?_, ?_, ?_, ?_⟩ <;>
      intro hnone <;> simp [yahooRecord, getKey, getD, hnone]
  · intro rc sym now net r h
    obtain ⟨p, c, cp, v, hi, lo, o, pc, hr⟩ := av_get_stock_data_some h
    subst hr
    refine ⟨?_, ?_, ?_, ?_, ?_⟩ <;> simp [avRecord, getKey]
  · intro sym now qr pr r h
    obtain ⟨p', c', cp', hi', lo', o', pc', hshape⟩ := finn_get_stock_data_some h
    rcases hshape with ⟨hpr, hr⟩ | ⟨p, hpr, hpne, hr⟩
    · subst hr
      refine ⟨by simp [finnBase, getKey], ?_, ?_⟩
      · intro _
        refine ⟨?_, ?_, ?_, ?_⟩ <;> simp [finnBase, getKey]
      · intro p hp hpne
        rcases hpr with h0 | h0 <;> rw [h0] at hp
        · exact absurd hp (by simp)
        · obtain rfl : p = [] := by injection hp with hh; exact hh.symm
          exact absurd rfl hpne
    · subst hr
      refine ⟨?_, ?_, ?_⟩
      · rw [getKey_finnProfileUpdate_sector]
        simp [finnBase, getKey]
      · intro hcon
        rcases hcon with h0 | h0 <;> rw [h0] at hpr
        · exact absurd hpr (by simp)
        · obtain rfl : p = [] := by injection hpr with hh; exact hh.symm
          exact absurd rfl hpne
      · intro p2 hp2 _
        obtain rfl : p2 = p := by rw [hpr] at hp2; injection hp2 with hh; exact hh.symm
        exact ⟨getKey_finnProfileUpdate_country _ _,
               getKey_finnProfileUpdate_currency _ _,
               getKey_finnProfileUpdate_exchange _ _,
               getKey_finnProfileUpdate_industry _ _⟩

theorem C9_default_fields_by_adapter_witness :
    YahooFinanceClient.get_stock_data "AAPL"
        (some [("regularMarketPrice", PyVal.num 1)]) "t" =
      some (yahooRecord (colonToDot "AAPL") [("regularMarketPrice", PyVal.num 1)] "t") ∧
    getKey (yahooRecord (colonToDot "AAPL") [("regularMarketPrice", PyVal.num 1)] "t")
        "sector" = some (PyVal.str "Unknown") ∧
    getKey (yahooRecord (colonToDot "AAPL") [("regularMarketPrice", PyVal.num 1)] "t")
        "currency" = some (PyVal.str "USD") := by
  have he : YahooFinanceClient.get_stock_data "AAPL"
      (some [("regularMarketPrice", PyVal.num 1)]) "t" =
      some (yahooRecord (colonToDot "AAPL") [("regularMarketPrice", PyVal.num 1)] "t") :=
    rfl
  have h := C9_default_fields_by_adapter.1 "AAPL" "t"
    [("regularMarketPrice", PyVal.num 1)] _ he
  exact ⟨he, h.2.2.2.2.2.1 (by decide), h.2.2.2.2.2.2.2.2.1 (by decide)⟩
